import Mathlib

/-!
Shallow embedding of the Choreboard server's state-mutation API
(`src/choreboard_server.py`). The persisted state is a JSON document;
request payloads are JSON values. Python dictionary access `d['k']` on a
missing key raises `KeyError`, which we model by making each mutator
return `Option Document`: `none` means the request handler raised an
unhandled fault (nothing is written back), `some d` means the handler
completed and persisted `d`. Evaluation order and short-circuiting of
`and`, `any` and list comprehensions are mirrored faithfully, because
they determine exactly which documents and payloads fault.
-/

namespace Choreboard

mutual

/-- JSON values, as produced by `json.load` / `request.json`
(floats omitted: the repository's data uses only integers, strings,
booleans, null, arrays and objects). -/
inductive JVal : Type where
  | jnull : JVal
  | jbool : Bool → JVal
  | jint : Int → JVal
  | jstr : String → JVal
  | jarr : JArr → JVal
  | jobj : JObj → JVal

/-- A JSON array: a list of JSON values. -/
inductive JArr : Type where
  | nil : JArr
  | cons : JVal → JArr → JArr

/-- A JSON object: an association list of string keys and JSON values
(Python dicts have unique keys; lookup takes the first match). -/
inductive JObj : Type where
  | nil : JObj
  | cons : String → JVal → JObj → JObj

end

deriving instance DecidableEq for JVal
deriving instance DecidableEq for JArr
deriving instance DecidableEq for JObj

/-- First-match field lookup in an object's field list. -/
def lookupField : JObj → String → Option JVal
  | JObj.nil, _ => none
  | JObj.cons k v rest, key => if k = key then some v else lookupField rest key

/-- `v.get? key` models Python `v[key]` / `v.get(key)` on a JSON value:
`some` of the field when `v` is an object containing `key`, otherwise
`none` (a `KeyError`, or a `TypeError` for `v[key]` on a non-dict). -/
def JVal.get? : JVal → String → Option JVal
  | JVal.jobj fs, key => lookupField fs key
  | _, _ => none

/-- Python truthiness of a JSON value, used by `if payload['completed']:`. -/
def JVal.truthy : JVal → Bool
  | JVal.jnull => false
  | JVal.jbool b => b
  | JVal.jint n => decide (n ≠ 0)
  | JVal.jstr s => decide (s ≠ "")
  | JVal.jarr JArr.nil => false
  | JVal.jarr (JArr.cons _ _) => true
  | JVal.jobj JObj.nil => false
  | JVal.jobj (JObj.cons _ _ _) => true

/-- Whether a JSON value is an object (a Python dict). -/
def JVal.isObj : JVal → Bool
  | JVal.jobj _ => true
  | _ => false

/-- An entry of `masterChores`: always created by `add_chore` with exactly
the keys `id`, `name`, `points`, `type` (values taken verbatim from the
payload, hence arbitrary JSON). -/
structure MasterChore : Type where
  id : JVal
  name : JVal
  points : JVal
  type : JVal
deriving DecidableEq

/-- An entry of `currentWeek.assignedChores`: always created with exactly
the keys `choreId`, `userId`, `completed`; `update_weekly_chore` stores
`payload['completed']` verbatim, so `completed` is arbitrary JSON. -/
structure AssignedChore : Type where
  choreId : JVal
  userId : JVal
  completed : JVal
deriving DecidableEq

/-- `currentWeek`. `completedLog` holds arbitrary JSON values because
`log_chore` appends the request payload verbatim. -/
structure CurrentWeek : Type where
  prize : JVal
  assignedChores : List AssignedChore
  completedLog : List JVal
deriving DecidableEq

/-- The persisted root document. `users` is never touched by any mutator,
so its entries stay raw JSON values. -/
structure Document : Type where
  users : List JVal
  masterChores : List MasterChore
  currentWeek : CurrentWeek
deriving DecidableEq

/-- The seed document materialized by `read_data` when no db file exists
(source lines 24-38). -/
def seedDocument : Document :=
  { users := [JVal.jobj (JObj.cons "id" (JVal.jint 1)
                (JObj.cons "name" (JVal.jstr "Alex") JObj.nil)),
              JVal.jobj (JObj.cons "id" (JVal.jint 2)
                (JObj.cons "name" (JVal.jstr "Jordan") JObj.nil))]
    masterChores :=
      [{ id := JVal.jint 1, name := JVal.jstr "Washed a dish",
         points := JVal.jint 5, type := JVal.jstr "repeatable" },
       { id := JVal.jint 2, name := JVal.jstr "Cleaned cat litter",
         points := JVal.jint 20, type := JVal.jstr "repeatable" }]
    currentWeek :=
      { prize := JVal.jstr "Winner picks dinner!"
        assignedChores := []
        completedLog := [] } }

/-- `log_chore` (source lines 81-91): appends the request payload verbatim
to `currentWeek.completedLog`. Total: it performs no key access. -/
def log_chore (payload : JVal) (d : Document) : Document :=
  { d with currentWeek := { d.currentWeek with
      completedLog := d.currentWeek.completedLog ++ [payload] } }

/-- The `for chore in assignedChores` loop of `update_weekly_chore`
(source lines 102-105): find the first entry matching
`(payload['choreId'], payload['userId'])`, set its `completed` to
`payload['completed']`, and `break`. Key accesses on `payload` happen
per iteration and short-circuit exactly as in Python: `payload['choreId']`
is read whenever the list is nonempty, `payload['userId']` only once some
entry's `choreId` matches, `payload['completed']` only on a full match. -/
def updateAssignedLoop (payload : JVal) : List AssignedChore → Option (List AssignedChore)
  | [] => some []
  | c :: rest => do
      let cid ← payload.get? "choreId"
      if c.choreId = cid then
        let uid ← payload.get? "userId"
        if c.userId = uid then
          let comp ← payload.get? "completed"
          pure ({ c with completed := comp } :: rest)
        else
          let rest' ← updateAssignedLoop payload rest
          pure (c :: rest')
      else
        let rest' ← updateAssignedLoop payload rest
        pure (c :: rest')

/-- The `any(log['choreId'] == payload['choreId'] and log['userId'] ==
payload['userId'] for log in completedLog)` check (source lines 110-113),
with Python's left-to-right, short-circuit evaluation and fault points. -/
def logExistsScan (payload : JVal) : List JVal → Option Bool
  | [] => some false
  | e :: rest => do
      let ecid ← e.get? "choreId"
      let cid ← payload.get? "choreId"
      if ecid = cid then
        let euid ← e.get? "userId"
        let uid ← payload.get? "userId"
        if euid = uid then pure true
        else logExistsScan payload rest
      else logExistsScan payload rest

/-- The log entry appended by `update_weekly_chore` (source lines 115-120):
`{"logId": payload.get('logId', cid), "choreId": cid, "userId": uid,
"timestamp": payload.get('timestamp')}`, where `cid`/`uid` are the already
fetched `payload['choreId']`/`payload['userId']`. -/
def mkLogEntry (payload cid uid : JVal) : JVal :=
  JVal.jobj (JObj.cons "logId" ((payload.get? "logId").getD cid)
    (JObj.cons "choreId" cid
      (JObj.cons "userId" uid
        (JObj.cons "timestamp" ((payload.get? "timestamp").getD JVal.jnull) JObj.nil))))

/-- The removal comprehension of `update_weekly_chore` (source lines
123-126): keep every log entry whose (choreId, userId) does not match the
payload's, evaluating `log['choreId'] == payload['choreId']` on every
entry and `log['userId'] == payload['userId']` only when the first
comparison succeeded. -/
def removeMatchingLog (payload : JVal) : List JVal → Option (List JVal)
  | [] => some []
  | e :: rest => do
      let ecid ← e.get? "choreId"
      let cid ← payload.get? "choreId"
      let keep ←
        if ecid = cid then do
          let euid ← e.get? "userId"
          let uid ← payload.get? "userId"
          pure (decide (euid ≠ uid))
        else pure true
      let rest' ← removeMatchingLog payload rest
      pure (if keep then e :: rest' else rest')

/-- `update_weekly_chore` (source lines 93-129): update the first matching
assigned chore's `completed`, then add a deduplicated log entry when
`payload['completed']` is truthy, or remove all matching log entries when
it is falsy. The eager default argument of
`payload.get('logId', payload['choreId'])` means `payload['choreId']` is
read (and can fault) in the append branch even when `logId` is present. -/
def update_weekly_chore (payload : JVal) (d : Document) : Option Document := do
  let assigned ← updateAssignedLoop payload d.currentWeek.assignedChores
  let comp ← payload.get? "completed"
  let log ←
    if comp.truthy then do
      let ex ← logExistsScan payload d.currentWeek.completedLog
      if ex then
        pure d.currentWeek.completedLog
      else do
        let cid ← payload.get? "choreId"
        let uid ← payload.get? "userId"
        pure (d.currentWeek.completedLog ++ [mkLogEntry payload cid uid])
    else
      removeMatchingLog payload d.currentWeek.completedLog
  pure { d with currentWeek := { d.currentWeek with
           assignedChores := assigned, completedLog := log } }

/-- `add_chore` (source lines 131-157): append `{id, name, points, type}`
to `masterChores`; when `type == 'weekly'` and `assignedUserId` is a key
of the payload, also append `{choreId, userId, completed: False}` to
`currentWeek.assignedChores`. -/
def add_chore (payload : JVal) (d : Document) : Option Document := do
  let i ← payload.get? "id"
  let nm ← payload.get? "name"
  let pts ← payload.get? "points"
  let ty ← payload.get? "type"
  let masters := d.masterChores ++ [{ id := i, name := nm, points := pts, type := ty }]
  let assigned :=
    if ty = JVal.jstr "weekly" then
      match payload.get? "assignedUserId" with
      | some u => d.currentWeek.assignedChores ++
          [{ choreId := i, userId := u, completed := JVal.jbool false }]
      | none => d.currentWeek.assignedChores
    else d.currentWeek.assignedChores
  pure { d with masterChores := masters,
                currentWeek := { d.currentWeek with assignedChores := assigned } }

/-- The `completedLog` comprehension of `delete_chore` (source line 171):
keep entries whose `log['choreId']` differs from the id being deleted;
faults on any log entry lacking a `choreId` key. -/
def filterLogByChoreId (cid : JVal) : List JVal → Option (List JVal)
  | [] => some []
  | e :: rest => do
      let ecid ← e.get? "choreId"
      let rest' ← filterLogByChoreId cid rest
      pure (if ecid = cid then rest' else e :: rest')

/-- `delete_chore` (source lines 159-174): filter the chore id out of
`masterChores`, `currentWeek.assignedChores` and `currentWeek.completedLog`. -/
def delete_chore (payload : JVal) (d : Document) : Option Document := do
  let cid ← payload.get? "choreId"
  let masters := d.masterChores.filter (fun c => decide (c.id ≠ cid))
  let assigned := d.currentWeek.assignedChores.filter (fun a => decide (a.choreId ≠ cid))
  let log ← filterLogByChoreId cid d.currentWeek.completedLog
  pure { d with masterChores := masters,
                currentWeek := { d.currentWeek with
                  assignedChores := assigned, completedLog := log } }

/-- `reset_week` (source lines 176-191): set the prize, clear the log, and
mark every assigned chore incomplete. `payload['prize']` is accessed
unconditionally (already in the log statement on line 180). -/
def reset_week (payload : JVal) (d : Document) : Option Document := do
  let prize ← payload.get? "prize"
  pure { d with currentWeek :=
    { prize := prize
      assignedChores := d.currentWeek.assignedChores.map
        (fun a => { a with completed := JVal.jbool false })
      completedLog := [] } }

/-- Spec-side predicate: a log entry whose `choreId` and `userId` fields
equal the given values (the (choreId, userId) pair used for dedup and
removal). -/
def pairMatches (cid uid : JVal) (e : JVal) : Bool :=
  decide (e.get? "choreId" = some cid) && decide (e.get? "userId" = some uid)

/-- Spec-side description of step 1 of Update Weekly Chore: set
`completed` on the first entry matching the pair, leave everything else
unchanged (identity when there is no match). -/
def setFirstMatch (cid uid comp : JVal) : List AssignedChore → List AssignedChore
  | [] => []
  | c :: rest =>
      if c.choreId = cid ∧ c.userId = uid then { c with completed := comp } :: rest
      else c :: setFirstMatch cid uid comp rest

/-- A log entry of the shape the spec's data model prescribes for
CompletedLogEntry: the keys `choreId` and `userId` are present. -/
def LogEntryHasPairKeys (e : JVal) : Prop :=
  (e.get? "choreId").isSome = true ∧ (e.get? "userId").isSome = true

/-- A document whose completed log consists of CompletedLogEntry-shaped
entries in the sense of the spec's data model (both pair keys present). -/
def LogHasPairKeys (d : Document) : Prop :=
  ∀ e ∈ d.currentWeek.completedLog, LogEntryHasPairKeys e

/-- A document whose completed log entries all carry a `choreId` key (the
part of the CompletedLogEntry shape that `delete_chore` relies on). -/
def LogHasChoreIdKeys (d : Document) : Prop :=
  ∀ e ∈ d.currentWeek.completedLog, (e.get? "choreId").isSome = true

/-! ### Characterization lemmas -/

/-- When the payload carries all three keys, the assigned-chore loop never
faults and computes `setFirstMatch`. -/
theorem updateAssignedLoop_eq (payload cid uid comp : JVal)
    (hc : payload.get? "choreId" = some cid)
    (hu : payload.get? "userId" = some uid)
    (hm : payload.get? "completed" = some comp) :
    ∀ l : List AssignedChore,
      updateAssignedLoop payload l = some (setFirstMatch cid uid comp l)
  | [] => rfl
  | c :: rest => by
      by_cases h1 : c.choreId = cid
      · by_cases h2 : c.userId = uid
        · simp [updateAssignedLoop, setFirstMatch, hc, hu, hm, h1, h2]
        · simp [updateAssignedLoop, setFirstMatch, hc, hu, hm, h1, h2,
            updateAssignedLoop_eq payload cid uid comp hc hu hm rest]
      · simp [updateAssignedLoop, setFirstMatch, hc, hu, hm, h1,
          updateAssignedLoop_eq payload cid uid comp hc hu hm rest]

/-- On a log of CompletedLogEntry-shaped entries and a payload with both
pair keys, the dedup scan never faults and computes `List.any` of the
pair predicate. -/
theorem logExistsScan_eq (payload cid uid : JVal)
    (hc : payload.get? "choreId" = some cid)
    (hu : payload.get? "userId" = some uid) :
    ∀ l : List JVal, (∀ e ∈ l, LogEntryHasPairKeys e) →
      logExistsScan payload l = some (l.any (pairMatches cid uid))
  | [], _ => rfl
  | e :: rest, h => by
      obtain ⟨hec, heu⟩ := h e (List.mem_cons_self e rest)
      obtain ⟨ecid, hecid⟩ := Option.isSome_iff_exists.mp hec
      obtain ⟨euid, heuid⟩ := Option.isSome_iff_exists.mp heu
      have hrest := logExistsScan_eq payload cid uid hc hu rest
        (fun x hx => h x (List.mem_cons_of_mem e hx))
      by_cases h1 : ecid = cid
      · by_cases h2 : euid = uid
        · simp [logExistsScan, pairMatches, hc, hu, hecid, heuid, h1, h2]
        · simp [logExistsScan, pairMatches, hc, hu, hecid, heuid, h1, h2, hrest]
      · simp [logExistsScan, pairMatches, hc, hu, hecid, heuid, h1, hrest]

/-- On a log of CompletedLogEntry-shaped entries and a payload with both
pair keys, the removal comprehension never faults and computes a filter. -/
theorem removeMatchingLog_eq (payload cid uid : JVal)
    (hc : payload.get? "choreId" = some cid)
    (hu : payload.get? "userId" = some uid) :
    ∀ l : List JVal, (∀ e ∈ l, LogEntryHasPairKeys e) →
      removeMatchingLog payload l =
        some (l.filter (fun e => !(pairMatches cid uid e)))
  | [], _ => rfl
  | e :: rest, h => by
      obtain ⟨hec, heu⟩ := h e (List.mem_cons_self e rest)
      obtain ⟨ecid, hecid⟩ := Option.isSome_iff_exists.mp hec
      obtain ⟨euid, heuid⟩ := Option.isSome_iff_exists.mp heu
      have hrest := removeMatchingLog_eq payload cid uid hc hu rest
        (fun x hx => h x (List.mem_cons_of_mem e hx))
      by_cases h1 : ecid = cid
      · by_cases h2 : euid = uid
        · simp [removeMatchingLog, pairMatches, List.filter_cons,
            hc, hu, hecid, heuid, h1, h2, hrest]
        · simp [removeMatchingLog, pairMatches, List.filter_cons,
            hc, hu, hecid, heuid, h1, h2, hrest]
      · simp [removeMatchingLog, pairMatches, List.filter_cons,
          hc, hu, hecid, heuid, h1, hrest]

/-- On a log whose entries all carry a `choreId` key, the delete-chore
comprehension never faults and computes a filter. -/
theorem filterLogByChoreId_eq (cid : JVal) :
    ∀ l : List JVal, (∀ e ∈ l, (e.get? "choreId").isSome = true) →
      filterLogByChoreId cid l =
        some (l.filter (fun e => !(decide (e.get? "choreId" = some cid))))
  | [], _ => rfl
  | e :: rest, h => by
      obtain ⟨ecid, hecid⟩ := Option.isSome_iff_exists.mp (h e (List.mem_cons_self e rest))
      have hrest := filterLogByChoreId_eq cid rest
        (fun x hx => h x (List.mem_cons_of_mem e hx))
      by_cases h1 : ecid = cid
      · simp [filterLogByChoreId, List.filter_cons, hecid, h1, hrest]
      · simp [filterLogByChoreId, List.filter_cons, hecid, h1, hrest]

/-- Setting the first matching assigned chore is idempotent. -/
theorem setFirstMatch_idem (cid uid comp : JVal) :
    ∀ l : List AssignedChore,
      setFirstMatch cid uid comp (setFirstMatch cid uid comp l) =
        setFirstMatch cid uid comp l
  | [] => rfl
  | c :: rest => by
      by_cases h : c.choreId = cid ∧ c.userId = uid
      · simp [setFirstMatch, h]
      · simp [setFirstMatch, h, setFirstMatch_idem cid uid comp rest]

/-- The log entry built by `update_weekly_chore` carries the payload's
`choreId`. -/
theorem mkLogEntry_choreId (payload cid uid : JVal) :
    (mkLogEntry payload cid uid).get? "choreId" = some cid := by
  simp [mkLogEntry, JVal.get?, lookupField]

/-- The log entry built by `update_weekly_chore` carries the payload's
`userId`. -/
theorem mkLogEntry_userId (payload cid uid : JVal) :
    (mkLogEntry payload cid uid).get? "userId" = some uid := by
  simp [mkLogEntry, JVal.get?, lookupField]

/-- The log entry built by `update_weekly_chore` matches its own pair. -/
theorem pairMatches_mkLogEntry (payload cid uid : JVal) :
    pairMatches cid uid (mkLogEntry payload cid uid) = true := by
  simp [pairMatches, mkLogEntry_choreId, mkLogEntry_userId]

/-- Full behaviour of `update_weekly_chore` when `payload['completed']`
is truthy, on a document with CompletedLogEntry-shaped log entries. -/
theorem update_weekly_chore_true_eq (payload : JVal) (d : Document) (cid uid comp : JVal)
    (hwf : LogHasPairKeys d)
    (hc : payload.get? "choreId" = some cid)
    (hu : payload.get? "userId" = some uid)
    (hm : payload.get? "completed" = some comp)
    (ht : comp.truthy = true) :
    update_weekly_chore payload d = some
      { d with currentWeek := { d.currentWeek with
          assignedChores := setFirstMatch cid uid comp d.currentWeek.assignedChores
          completedLog :=
            if d.currentWeek.completedLog.any (pairMatches cid uid) = true
            then d.currentWeek.completedLog
            else d.currentWeek.completedLog ++ [mkLogEntry payload cid uid] } } := by
  have hloop := updateAssignedLoop_eq payload cid uid comp hc hu hm
    d.currentWeek.assignedChores
  have hscan := logExistsScan_eq payload cid uid hc hu d.currentWeek.completedLog hwf
  by_cases hany : d.currentWeek.completedLog.any (pairMatches cid uid) = true
  · simp [update_weekly_chore, hloop, hscan, hm, ht, hany]
  · simp [update_weekly_chore, hloop, hscan, hm, ht, hany, hc, hu]

/-- Full behaviour of `update_weekly_chore` when `payload['completed']`
is falsy, on a document with CompletedLogEntry-shaped log entries. -/
theorem update_weekly_chore_false_eq (payload : JVal) (d : Document) (cid uid comp : JVal)
    (hwf : LogHasPairKeys d)
    (hc : payload.get? "choreId" = some cid)
    (hu : payload.get? "userId" = some uid)
    (hm : payload.get? "completed" = some comp)
    (ht : comp.truthy = false) :
    update_weekly_chore payload d = some
      { d with currentWeek := { d.currentWeek with
          assignedChores := setFirstMatch cid uid comp d.currentWeek.assignedChores
          completedLog :=
            d.currentWeek.completedLog.filter (fun e => !(pairMatches cid uid e)) } } := by
  have hloop := updateAssignedLoop_eq payload cid uid comp hc hu hm
    d.currentWeek.assignedChores
  have hrem := removeMatchingLog_eq payload cid uid hc hu d.currentWeek.completedLog hwf
  simp [update_weekly_chore, hloop, hrem, hm, ht]

/-- When no assigned chore matches the pair, `setFirstMatch` is the
identity. -/
theorem setFirstMatch_of_no_match (cid uid comp : JVal) :
    ∀ l : List AssignedChore, (∀ c ∈ l, ¬(c.choreId = cid ∧ c.userId = uid)) →
      setFirstMatch cid uid comp l = l
  | [], _ => rfl
  | c :: rest, h => by
      have hc := h c (List.mem_cons_self c rest)
      simp [setFirstMatch, hc,
        setFirstMatch_of_no_match cid uid comp rest
          (fun x hx => h x (List.mem_cons_of_mem c hx))]

/-- The dedup scan faults on any nonempty log when the payload lacks a
`choreId` key. -/
theorem logExistsScan_none_of_no_choreId (payload : JVal)
    (hcn : payload.get? "choreId" = none) (e : JVal) (rest : List JVal) :
    logExistsScan payload (e :: rest) = none := by
  cases h : e.get? "choreId" <;> simp [logExistsScan, h, hcn]

/-- The dedup scan can never report a hit when the payload lacks a
`userId` key (the hit test reads `payload['userId']` first). -/
theorem logExistsScan_ne_true_of_no_userId (payload : JVal)
    (hun : payload.get? "userId" = none) :
    ∀ l : List JVal, logExistsScan payload l ≠ some true
  | [] => by simp [logExistsScan]
  | e :: rest => by
      have ih := logExistsScan_ne_true_of_no_userId payload hun rest
      cases h1 : e.get? "choreId"
      · simp [logExistsScan, h1]
      · cases h2 : payload.get? "choreId"
        · simp [logExistsScan, h1, h2]
        · rename_i ecid cid
          by_cases h3 : ecid = cid
          · cases h4 : e.get? "userId" <;>
              simp [logExistsScan, h1, h2, h3, h4, hun]
          · simp [logExistsScan, h1, h2, h3, ih]

/-! ### Claim theorems -/

/-- C7: for every document (with CompletedLogEntry-shaped log entries, as
the spec's data model prescribes) and every update_weekly_chore payload,
the first entry of assignedChores whose (choreId, userId) matches the
payload gets its completed field set to the payload's completed value and
all other entries are unchanged (this is `setFirstMatch`); when no entry
matches, assignedChores is left entirely unchanged — a silent no-op. -/
theorem update_weekly_chore_first_match
    (payload : JVal) (d : Document) (cid uid comp : JVal)
    (hwf : LogHasPairKeys d)
    (hc : payload.get? "choreId" = some cid)
    (hu : payload.get? "userId" = some uid)
    (hm : payload.get? "completed" = some comp) :
    ∃ d', update_weekly_chore payload d = some d' ∧
      d'.currentWeek.assignedChores =
        setFirstMatch cid uid comp d.currentWeek.assignedChores ∧
      ((∀ c ∈ d.currentWeek.assignedChores, ¬(c.choreId = cid ∧ c.userId = uid)) →
        d'.currentWeek.assignedChores = d.currentWeek.assignedChores) := by
  cases ht : comp.truthy
  · exact ⟨_, update_weekly_chore_false_eq payload d cid uid comp hwf hc hu hm ht,
      rfl, fun h => setFirstMatch_of_no_match cid uid comp _ h⟩
  · exact ⟨_, update_weekly_chore_true_eq payload d cid uid comp hwf hc hu hm ht,
      rfl, fun h => setFirstMatch_of_no_match cid uid comp _ h⟩

/-- C7 witness: on the seed document extended with one assigned chore,
updating (3, 1) to completed leaves the rest unchanged. -/
theorem update_weekly_chore_first_match_witness :
    ∃ d', update_weekly_chore
        (JVal.jobj (JObj.cons "choreId" (JVal.jint 3)
          (JObj.cons "userId" (JVal.jint 1)
            (JObj.cons "completed" (JVal.jbool true) JObj.nil))))
        { seedDocument with currentWeek := { seedDocument.currentWeek with
            assignedChores := [{ choreId := JVal.jint 3, userId := JVal.jint 1,
                                 completed := JVal.jbool false }] } } = some d' ∧
      d'.currentWeek.assignedChores =
        setFirstMatch (JVal.jint 3) (JVal.jint 1) (JVal.jbool true)
          [{ choreId := JVal.jint 3, userId := JVal.jint 1,
             completed := JVal.jbool false }] ∧
      ((∀ c ∈ [({ choreId := JVal.jint 3, userId := JVal.jint 1,
                  completed := JVal.jbool false } : AssignedChore)],
          ¬(c.choreId = JVal.jint 3 ∧ c.userId = JVal.jint 1)) →
        d'.currentWeek.assignedChores =
          [{ choreId := JVal.jint 3, userId := JVal.jint 1,
             completed := JVal.jbool false }]) :=
  update_weekly_chore_first_match _ _ _ _ _
    (by intro e he; simp [seedDocument] at he) rfl rfl rfl

/-- C6: for every document (with CompletedLogEntry-shaped log entries)
and every payload with falsy completed, the operation removes from
completedLog exactly the entries matching the payload's pair, keeping the
others in their original order (a filter), and afterwards no entry for
that pair remains. -/
theorem update_weekly_chore_uncomplete_removes
    (payload : JVal) (d : Document) (cid uid comp : JVal)
    (hwf : LogHasPairKeys d)
    (hc : payload.get? "choreId" = some cid)
    (hu : payload.get? "userId" = some uid)
    (hm : payload.get? "completed" = some comp)
    (ht : comp.truthy = false) :
    ∃ d', update_weekly_chore payload d = some d' ∧
      d'.currentWeek.completedLog =
        d.currentWeek.completedLog.filter (fun e => !(pairMatches cid uid e)) ∧
      (∀ e ∈ d'.currentWeek.completedLog, pairMatches cid uid e = false) := by
  refine ⟨_, update_weekly_chore_false_eq payload d cid uid comp hwf hc hu hm ht, rfl, ?_⟩
  intro e he
  have := List.of_mem_filter he
  simpa using this

/-- C6 witness: uncompleting (3, 1) on a document whose log holds exactly
one entry for that pair empties the log. -/
theorem update_weekly_chore_uncomplete_removes_witness :
    ∃ d', update_weekly_chore
        (JVal.jobj (JObj.cons "choreId" (JVal.jint 3)
          (JObj.cons "userId" (JVal.jint 1)
            (JObj.cons "completed" (JVal.jbool false) JObj.nil))))
        { seedDocument with currentWeek := { seedDocument.currentWeek with
            completedLog := [JVal.jobj (JObj.cons "choreId" (JVal.jint 3)
              (JObj.cons "userId" (JVal.jint 1) JObj.nil))] } } = some d' ∧
      d'.currentWeek.completedLog =
        List.filter (fun e => !(pairMatches (JVal.jint 3) (JVal.jint 1) e))
          [JVal.jobj (JObj.cons "choreId" (JVal.jint 3)
            (JObj.cons "userId" (JVal.jint 1) JObj.nil))] ∧
      (∀ e ∈ d'.currentWeek.completedLog,
        pairMatches (JVal.jint 3) (JVal.jint 1) e = false) :=
  update_weekly_chore_uncomplete_removes _ _ _ _ _
    (by intro e he; simp [seedDocument] at he;
        simp [he, LogEntryHasPairKeys, JVal.get?, lookupField])
    rfl rfl rfl rfl

/-- Full behaviour of `delete_chore` on a document whose log entries all
carry a `choreId` key. -/
theorem delete_chore_eq (payload : JVal) (d : Document) (cid : JVal)
    (hwf : LogHasChoreIdKeys d)
    (hc : payload.get? "choreId" = some cid) :
    delete_chore payload d = some
      { d with
        masterChores := d.masterChores.filter (fun c => decide (c.id ≠ cid))
        currentWeek := { d.currentWeek with
          assignedChores :=
            d.currentWeek.assignedChores.filter (fun a => decide (a.choreId ≠ cid))
          completedLog :=
            d.currentWeek.completedLog.filter
              (fun e => !(decide (e.get? "choreId" = some cid))) } } := by
  simp [delete_chore, hc, filterLogByChoreId_eq cid d.currentWeek.completedLog hwf]

/-- C2: for every document (whose log entries carry a `choreId` key, as
the spec's data model prescribes) and every delete payload, the result
keeps exactly the masterChores whose id differs, the assignedChores whose
choreId differs, and the log entries whose choreId differs — each an
order-preserving filter — and users and prize are untouched. -/
theorem delete_chore_filters (payload : JVal) (d : Document) (cid : JVal)
    (hwf : LogHasChoreIdKeys d)
    (hc : payload.get? "choreId" = some cid) :
    ∃ d', delete_chore payload d = some d' ∧
      d'.masterChores = d.masterChores.filter (fun c => decide (c.id ≠ cid)) ∧
      d'.currentWeek.assignedChores =
        d.currentWeek.assignedChores.filter (fun a => decide (a.choreId ≠ cid)) ∧
      d'.currentWeek.completedLog =
        d.currentWeek.completedLog.filter
          (fun e => !(decide (e.get? "choreId" = some cid))) ∧
      d'.users = d.users ∧ d'.currentWeek.prize = d.currentWeek.prize :=
  ⟨_, delete_chore_eq payload d cid hwf hc, rfl, rfl, rfl, rfl, rfl⟩

/-- C2 witness: deleting chore 1 from the seed document drops exactly the
first master chore. -/
theorem delete_chore_filters_witness :
    ∃ d', delete_chore (JVal.jobj (JObj.cons "choreId" (JVal.jint 1) JObj.nil))
        seedDocument = some d' ∧
      d'.masterChores =
        seedDocument.masterChores.filter (fun c => decide (c.id ≠ JVal.jint 1)) ∧
      d'.currentWeek.assignedChores =
        seedDocument.currentWeek.assignedChores.filter
          (fun a => decide (a.choreId ≠ JVal.jint 1)) ∧
      d'.currentWeek.completedLog =
        seedDocument.currentWeek.completedLog.filter
          (fun e => !(decide (e.get? "choreId" = some (JVal.jint 1)))) ∧
      d'.users = seedDocument.users ∧
      d'.currentWeek.prize = seedDocument.currentWeek.prize :=
  delete_chore_filters _ _ _ (by intro e he; simp [seedDocument] at he) rfl

/-- C5: deleting the same choreId twice equals deleting it once, and
deleting an id absent from all three lists leaves the document unchanged
(documents with CompletedLogEntry-shaped log entries, per the spec's data
model). -/
theorem delete_chore_idempotent (payload : JVal) (d : Document) (cid : JVal)
    (hwf : LogHasChoreIdKeys d)
    (hc : payload.get? "choreId" = some cid) :
    ∃ d', delete_chore payload d = some d' ∧
      delete_chore payload d' = some d' ∧
      ((∀ c ∈ d.masterChores, c.id ≠ cid) →
       (∀ a ∈ d.currentWeek.assignedChores, a.choreId ≠ cid) →
       (∀ e ∈ d.currentWeek.completedLog, e.get? "choreId" ≠ some cid) →
       d' = d) := by
  have h1 := delete_chore_eq payload d cid hwf hc
  refine ⟨_, h1, ?_, ?_⟩
  · have hwf' : LogHasChoreIdKeys
        { d with
          masterChores := d.masterChores.filter (fun c => decide (c.id ≠ cid))
          currentWeek := { d.currentWeek with
            assignedChores :=
              d.currentWeek.assignedChores.filter (fun a => decide (a.choreId ≠ cid))
            completedLog :=
              d.currentWeek.completedLog.filter
                (fun e => !(decide (e.get? "choreId" = some cid))) } } := by
      intro e he
      exact hwf e (List.mem_of_mem_filter he)
    have h2 := delete_chore_eq payload _ cid hwf' hc
    rw [h2]
    simp [List.filter_filter]
  · intro hmc hac hlc
    have e1 : d.masterChores.filter (fun c => decide (c.id ≠ cid)) = d.masterChores :=
      List.filter_eq_self.mpr (fun c hcm => by simpa using hmc c hcm)
    have e2 : d.currentWeek.assignedChores.filter
        (fun a => decide (a.choreId ≠ cid)) = d.currentWeek.assignedChores :=
      List.filter_eq_self.mpr (fun a ham => by simpa using hac a ham)
    have e3 : d.currentWeek.completedLog.filter
        (fun e => !(decide (e.get? "choreId" = some cid))) =
        d.currentWeek.completedLog :=
      List.filter_eq_self.mpr (fun e hem => by simpa using hlc e hem)
    rw [e1, e2, e3]

/-- C5 witness: deleting chore id 2 from the seed document is idempotent,
and the absent id 3 branch applies to the untouched lists. -/
theorem delete_chore_idempotent_witness :
    ∃ d', delete_chore (JVal.jobj (JObj.cons "choreId" (JVal.jint 3) JObj.nil))
        seedDocument = some d' ∧
      delete_chore (JVal.jobj (JObj.cons "choreId" (JVal.jint 3) JObj.nil)) d' =
        some d' ∧
      ((∀ c ∈ seedDocument.masterChores, c.id ≠ JVal.jint 3) →
       (∀ a ∈ seedDocument.currentWeek.assignedChores, a.choreId ≠ JVal.jint 3) →
       (∀ e ∈ seedDocument.currentWeek.completedLog,
          e.get? "choreId" ≠ some (JVal.jint 3)) →
       d' = seedDocument) :=
  delete_chore_idempotent _ _ _ (by intro e he; simp [seedDocument] at he) rfl

/-- C3: for every document and every reset payload carrying a prize, the
operation sets the prize, empties the log, and clears every assigned
chore's completed flag while preserving the assigned pairs in order, the
master chores and the users. -/
theorem reset_week_spec (payload : JVal) (d : Document) (p : JVal)
    (hp : payload.get? "prize" = some p) :
    ∃ d', reset_week payload d = some d' ∧
      d'.currentWeek.prize = p ∧
      d'.currentWeek.completedLog = [] ∧
      d'.currentWeek.assignedChores =
        d.currentWeek.assignedChores.map
          (fun a => { a with completed := JVal.jbool false }) ∧
      d'.currentWeek.assignedChores.map AssignedChore.choreId =
        d.currentWeek.assignedChores.map AssignedChore.choreId ∧
      d'.currentWeek.assignedChores.map AssignedChore.userId =
        d.currentWeek.assignedChores.map AssignedChore.userId ∧
      (∀ a ∈ d'.currentWeek.assignedChores, a.completed = JVal.jbool false) ∧
      d'.masterChores = d.masterChores ∧ d'.users = d.users := by
  refine ⟨{ d with currentWeek :=
      { prize := p
        assignedChores := d.currentWeek.assignedChores.map
          (fun a => { a with completed := JVal.jbool false })
        completedLog := [] } }, ?_, rfl, rfl, rfl, ?_, ?_, ?_, rfl, rfl⟩
  · simp [reset_week, hp]
  · simp [List.map_map]
  · simp [List.map_map]
  · intro a ha
    obtain ⟨b, _, rfl⟩ := List.mem_map.mp ha
    rfl

/-- C3 witness: resetting the week on a document with one completed
assigned chore and one log entry. -/
theorem reset_week_spec_witness :
    ∃ d', reset_week (JVal.jobj (JObj.cons "prize" (JVal.jstr "Movie night") JObj.nil))
        { seedDocument with currentWeek :=
            { prize := JVal.jstr "Winner picks dinner!"
              assignedChores := [{ choreId := JVal.jint 3, userId := JVal.jint 1,
                                   completed := JVal.jbool true }]
              completedLog := [JVal.jobj (JObj.cons "choreId" (JVal.jint 3)
                (JObj.cons "userId" (JVal.jint 1) JObj.nil))] } } = some d' ∧
      d'.currentWeek.prize = JVal.jstr "Movie night" ∧
      d'.currentWeek.completedLog = [] ∧
      d'.currentWeek.assignedChores =
        List.map (fun a : AssignedChore => { a with completed := JVal.jbool false })
          [{ choreId := JVal.jint 3, userId := JVal.jint 1,
             completed := JVal.jbool true }] ∧
      d'.currentWeek.assignedChores.map AssignedChore.choreId =
        List.map AssignedChore.choreId
          [{ choreId := JVal.jint 3, userId := JVal.jint 1,
             completed := JVal.jbool true }] ∧
      d'.currentWeek.assignedChores.map AssignedChore.userId =
        List.map AssignedChore.userId
          [{ choreId := JVal.jint 3, userId := JVal.jint 1,
             completed := JVal.jbool true }] ∧
      (∀ a ∈ d'.currentWeek.assignedChores, a.completed = JVal.jbool false) ∧
      d'.masterChores = seedDocument.masterChores ∧
      d'.users = seedDocument.users :=
  reset_week_spec _ _ (JVal.jstr "Movie night") rfl

/-- C10: `delete_chore` is not total on reachable documents: after
`log_chore` appends a verbatim payload without a `choreId` field to the
seed document's log, `delete_chore` faults with a key-access error for
every choreId argument, instead of performing the specified filter. -/
theorem delete_chore_faults_on_verbatim_log_entry (cid : JVal) :
    delete_chore (JVal.jobj (JObj.cons "choreId" cid JObj.nil))
      (log_chore (JVal.jobj JObj.nil) seedDocument) = none := rfl

/-- C1: for every document (with CompletedLogEntry-shaped log entries, as
the spec's data model prescribes) and every payload with truthy completed,
the operation appends exactly one entry `{logId: logId or choreId,
choreId, userId, timestamp}` (this is `mkLogEntry`) iff no existing log
entry already has the same (choreId, userId) pair, and leaves the log
unchanged otherwise; re-applying the same payload is the identity, and
starting from a log with no entry for the pair it leaves exactly one. -/
theorem update_weekly_chore_complete_dedup
    (payload : JVal) (d : Document) (cid uid comp : JVal)
    (hwf : LogHasPairKeys d)
    (hc : payload.get? "choreId" = some cid)
    (hu : payload.get? "userId" = some uid)
    (hm : payload.get? "completed" = some comp)
    (ht : comp.truthy = true) :
    ∃ d', update_weekly_chore payload d = some d' ∧
      d'.currentWeek.completedLog =
        (if d.currentWeek.completedLog.any (pairMatches cid uid) = true
         then d.currentWeek.completedLog
         else d.currentWeek.completedLog ++ [mkLogEntry payload cid uid]) ∧
      update_weekly_chore payload d' = some d' ∧
      (d.currentWeek.completedLog.any (pairMatches cid uid) = false →
        d'.currentWeek.completedLog.countP (pairMatches cid uid) = 1) := by
  have h1 := update_weekly_chore_true_eq payload d cid uid comp hwf hc hu hm ht
  by_cases hany : d.currentWeek.completedLog.any (pairMatches cid uid) = true
  · rw [if_pos hany] at h1
    refine ⟨_, h1, by rw [if_pos hany], ?_, ?_⟩
    · have h2 := update_weekly_chore_true_eq payload
        { d with currentWeek := { d.currentWeek with
            assignedChores := setFirstMatch cid uid comp d.currentWeek.assignedChores
            completedLog := d.currentWeek.completedLog } }
        cid uid comp hwf hc hu hm ht
      rw [h2]
      simp [setFirstMatch_idem, hany]
    · intro hfalse
      exact absurd hany (by simp [hfalse])
  · rw [if_neg hany] at h1
    have hanyf : d.currentWeek.completedLog.any (pairMatches cid uid) = false :=
      Bool.eq_false_iff.mpr hany
    refine ⟨_, h1, by rw [if_neg hany], ?_, ?_⟩
    · have hwf2 : LogHasPairKeys
          { d with currentWeek := { d.currentWeek with
              assignedChores := setFirstMatch cid uid comp d.currentWeek.assignedChores
              completedLog := d.currentWeek.completedLog ++ [mkLogEntry payload cid uid] } } := by
        intro e he
        rcases List.mem_append.mp he with h | h
        · exact hwf e h
        · rcases List.mem_singleton.mp h with rfl
          exact ⟨by simp [mkLogEntry_choreId], by simp [mkLogEntry_userId]⟩
      have h2 := update_weekly_chore_true_eq payload
        { d with currentWeek := { d.currentWeek with
            assignedChores := setFirstMatch cid uid comp d.currentWeek.assignedChores
            completedLog := d.currentWeek.completedLog ++ [mkLogEntry payload cid uid] } }
        cid uid comp hwf2 hc hu hm ht
      rw [h2]
      simp [setFirstMatch_idem, List.any_append, pairMatches_mkLogEntry]
    · intro _
      have hzero : d.currentWeek.completedLog.countP (pairMatches cid uid) = 0 := by
        rw [List.countP_eq_zero]
        intro e he
        have := List.any_eq_false.mp hanyf e he
        simpa using this
      simp [List.countP_append, hzero, List.countP_cons, pairMatches_mkLogEntry]

/-- C1 witness: completing (3, 1) on a document with an empty log appends
one entry, and completing again changes nothing. -/
theorem update_weekly_chore_complete_dedup_witness :
    ∃ d', update_weekly_chore
        (JVal.jobj (JObj.cons "choreId" (JVal.jint 3)
          (JObj.cons "userId" (JVal.jint 1)
            (JObj.cons "completed" (JVal.jbool true)
              (JObj.cons "timestamp" (JVal.jstr "T1") JObj.nil)))))
        seedDocument = some d' ∧
      d'.currentWeek.completedLog =
        (if seedDocument.currentWeek.completedLog.any
              (pairMatches (JVal.jint 3) (JVal.jint 1)) = true
         then seedDocument.currentWeek.completedLog
         else seedDocument.currentWeek.completedLog ++
           [mkLogEntry (JVal.jobj (JObj.cons "choreId" (JVal.jint 3)
              (JObj.cons "userId" (JVal.jint 1)
                (JObj.cons "completed" (JVal.jbool true)
                  (JObj.cons "timestamp" (JVal.jstr "T1") JObj.nil)))))
              (JVal.jint 3) (JVal.jint 1)]) ∧
      update_weekly_chore
        (JVal.jobj (JObj.cons "choreId" (JVal.jint 3)
          (JObj.cons "userId" (JVal.jint 1)
            (JObj.cons "completed" (JVal.jbool true)
              (JObj.cons "timestamp" (JVal.jstr "T1") JObj.nil))))) d' = some d' ∧
      (seedDocument.currentWeek.completedLog.any
          (pairMatches (JVal.jint 3) (JVal.jint 1)) = false →
        d'.currentWeek.completedLog.countP
          (pairMatches (JVal.jint 3) (JVal.jint 1)) = 1) :=
  update_weekly_chore_complete_dedup _ _ _ _ _
    (by intro e he; simp [seedDocument] at he) rfl rfl rfl rfl

/-- C4: for every document and every add_chore payload with the four
required keys, the operation appends `{id, name, points, type}` to
masterChores unconditionally; it appends `{choreId: id, userId:
assignedUserId, completed: false}` to assignedChores exactly when
`type == "weekly"` and `assignedUserId` is present; with no duplicate
check, the same weekly payload applied twice yields two identical rows. -/
theorem add_chore_spec (payload : JVal) (d : Document) (i nm pts ty : JVal)
    (hi : payload.get? "id" = some i)
    (hn : payload.get? "name" = some nm)
    (hp : payload.get? "points" = some pts)
    (hty : payload.get? "type" = some ty) :
    ∃ d', add_chore payload d = some d' ∧
      d'.masterChores = d.masterChores ++
        [{ id := i, name := nm, points := pts, type := ty }] ∧
      (∀ u, payload.get? "assignedUserId" = some u → ty = JVal.jstr "weekly" →
        d'.currentWeek.assignedChores = d.currentWeek.assignedChores ++
          [{ choreId := i, userId := u, completed := JVal.jbool false }] ∧
        ∃ d'', add_chore payload d' = some d'' ∧
          d''.currentWeek.assignedChores = d.currentWeek.assignedChores ++
            [{ choreId := i, userId := u, completed := JVal.jbool false },
             { choreId := i, userId := u, completed := JVal.jbool false }]) ∧
      ((payload.get? "assignedUserId" = none ∨ ty ≠ JVal.jstr "weekly") →
        d'.currentWeek.assignedChores = d.currentWeek.assignedChores) := by
  by_cases hw : ty = JVal.jstr "weekly"
  · cases hau : payload.get? "assignedUserId" with
    | none =>
        refine ⟨{ d with
            masterChores := d.masterChores ++
              [{ id := i, name := nm, points := pts, type := ty }]
            currentWeek := d.currentWeek }, ?_, rfl, ?_, fun _ => rfl⟩
        · simp [add_chore, hi, hn, hp, hty, hw, hau]
        · intro u hu
          simp [hau] at hu
    | some u =>
        refine ⟨{ d with
            masterChores := d.masterChores ++
              [{ id := i, name := nm, points := pts, type := ty }]
            currentWeek := { d.currentWeek with
              assignedChores := d.currentWeek.assignedChores ++
                [{ choreId := i, userId := u, completed := JVal.jbool false }] } },
          ?_, rfl, ?_, ?_⟩
        · simp [add_chore, hi, hn, hp, hty, hw, hau]
        · intro u' hu' _
          obtain rfl : u = u' := by injection hu'
          refine ⟨rfl, ?_⟩
          refine ⟨{ d with
              masterChores := d.masterChores ++
                [{ id := i, name := nm, points := pts, type := ty },
                 { id := i, name := nm, points := pts, type := ty }]
              currentWeek := { d.currentWeek with
                assignedChores := d.currentWeek.assignedChores ++
                  [{ choreId := i, userId := u, completed := JVal.jbool false },
                   { choreId := i, userId := u, completed := JVal.jbool false }] } },
            ?_, by simp⟩
          simp [add_chore, hi, hn, hp, hty, hw, hau]
        · intro h
          rcases h with h | h
          · simp [hau] at h
          · exact absurd hw h
  · refine ⟨{ d with
        masterChores := d.masterChores ++
          [{ id := i, name := nm, points := pts, type := ty }]
        currentWeek := d.currentWeek }, ?_, rfl, ?_, fun _ => rfl⟩
    · simp [add_chore, hi, hn, hp, hty, hw]
    · intro u _ hw'
      exact absurd hw' hw

/-- C4 witness: the spec's scenario — adding weekly chore 3 assigned to
user 1 on the seed document, then adding it again. -/
theorem add_chore_spec_witness :
    ∃ d', add_chore
        (JVal.jobj (JObj.cons "id" (JVal.jint 3)
          (JObj.cons "name" (JVal.jstr "Take out trash")
            (JObj.cons "points" (JVal.jint 10)
              (JObj.cons "type" (JVal.jstr "weekly")
                (JObj.cons "assignedUserId" (JVal.jint 1) JObj.nil))))))
        seedDocument = some d' ∧
      d'.masterChores = seedDocument.masterChores ++
        [{ id := JVal.jint 3, name := JVal.jstr "Take out trash",
           points := JVal.jint 10, type := JVal.jstr "weekly" }] ∧
      (∀ u, (JVal.jobj (JObj.cons "id" (JVal.jint 3)
          (JObj.cons "name" (JVal.jstr "Take out trash")
            (JObj.cons "points" (JVal.jint 10)
              (JObj.cons "type" (JVal.jstr "weekly")
                (JObj.cons "assignedUserId" (JVal.jint 1) JObj.nil)))))).get?
            "assignedUserId" = some u →
          JVal.jstr "weekly" = JVal.jstr "weekly" →
        d'.currentWeek.assignedChores = seedDocument.currentWeek.assignedChores ++
          [{ choreId := JVal.jint 3, userId := u, completed := JVal.jbool false }] ∧
        ∃ d'', add_chore
            (JVal.jobj (JObj.cons "id" (JVal.jint 3)
              (JObj.cons "name" (JVal.jstr "Take out trash")
                (JObj.cons "points" (JVal.jint 10)
                  (JObj.cons "type" (JVal.jstr "weekly")
                    (JObj.cons "assignedUserId" (JVal.jint 1) JObj.nil)))))) d' =
            some d'' ∧
          d''.currentWeek.assignedChores = seedDocument.currentWeek.assignedChores ++
            [{ choreId := JVal.jint 3, userId := u, completed := JVal.jbool false },
             { choreId := JVal.jint 3, userId := u, completed := JVal.jbool false }]) ∧
      (((JVal.jobj (JObj.cons "id" (JVal.jint 3)
          (JObj.cons "name" (JVal.jstr "Take out trash")
            (JObj.cons "points" (JVal.jint 10)
              (JObj.cons "type" (JVal.jstr "weekly")
                (JObj.cons "assignedUserId" (JVal.jint 1) JObj.nil)))))).get?
            "assignedUserId" = none ∨ JVal.jstr "weekly" ≠ JVal.jstr "weekly") →
        d'.currentWeek.assignedChores = seedDocument.currentWeek.assignedChores) :=
  add_chore_spec _ _ _ _ _ _ rfl rfl rfl rfl

/-- C8: for every document and every JSON-object payload, `log_chore`
appends the payload verbatim as the last element of completedLog, with no
validation, and users, masterChores, prize and assignedChores are all
unchanged. -/
theorem log_chore_verbatim_append (payload : JVal) (d : Document)
    (_hobj : payload.isObj = true) :
    (log_chore payload d).currentWeek.completedLog =
      d.currentWeek.completedLog ++ [payload] ∧
    (log_chore payload d).users = d.users ∧
    (log_chore payload d).masterChores = d.masterChores ∧
    (log_chore payload d).currentWeek.prize = d.currentWeek.prize ∧
    (log_chore payload d).currentWeek.assignedChores =
      d.currentWeek.assignedChores :=
  ⟨rfl, rfl, rfl, rfl, rfl⟩

/-- C8 witness: logging an ad-hoc repeatable-chore object on the seed
document. -/
theorem log_chore_verbatim_append_witness :
    (log_chore (JVal.jobj (JObj.cons "choreId" (JVal.jint 1)
        (JObj.cons "userId" (JVal.jint 2) JObj.nil))) seedDocument).currentWeek.completedLog =
      seedDocument.currentWeek.completedLog ++
        [JVal.jobj (JObj.cons "choreId" (JVal.jint 1)
          (JObj.cons "userId" (JVal.jint 2) JObj.nil))] ∧
    (log_chore (JVal.jobj (JObj.cons "choreId" (JVal.jint 1)
        (JObj.cons "userId" (JVal.jint 2) JObj.nil))) seedDocument).users =
      seedDocument.users ∧
    (log_chore (JVal.jobj (JObj.cons "choreId" (JVal.jint 1)
        (JObj.cons "userId" (JVal.jint 2) JObj.nil))) seedDocument).masterChores =
      seedDocument.masterChores ∧
    (log_chore (JVal.jobj (JObj.cons "choreId" (JVal.jint 1)
        (JObj.cons "userId" (JVal.jint 2) JObj.nil))) seedDocument).currentWeek.prize =
      seedDocument.currentWeek.prize ∧
    (log_chore (JVal.jobj (JObj.cons "choreId" (JVal.jint 1)
        (JObj.cons "userId" (JVal.jint 2) JObj.nil))) seedDocument).currentWeek.assignedChores =
      seedDocument.currentWeek.assignedChores :=
  log_chore_verbatim_append _ _ rfl

/-- C9 counterexample: a payload with `completed` present (and falsy) but
no `choreId` and no `userId` key does NOT raise a key-access error on the
seed document — both the assigned-chore loop and the removal
comprehension iterate over empty lists, so no payload key is ever read
and the handler returns the document unchanged. This refutes the claim
that a missing `choreId`/`userId` key faults for every document state. -/
theorem update_weekly_chore_missing_keys_counterexample :
    (JVal.jobj (JObj.cons "completed" (JVal.jbool false) JObj.nil)).get? "choreId"
        = none ∧
    (JVal.jobj (JObj.cons "completed" (JVal.jbool false) JObj.nil)).get? "userId"
        = none ∧
    update_weekly_chore (JVal.jobj (JObj.cons "completed" (JVal.jbool false) JObj.nil))
        seedDocument = some seedDocument :=
  ⟨rfl, rfl, rfl⟩

/-- C9 amended: a payload missing `completed` always raises a fatal
key-access error; a payload missing `choreId` or `userId` raises one
whenever `completed` is truthy; but when `completed` is present and
falsy, the key accesses can be skipped entirely — on a document with
empty assignedChores and empty completedLog the handler succeeds and
returns the document unchanged. -/
theorem update_weekly_chore_missing_keys_amended (payload : JVal) (d : Document) :
    (payload.get? "completed" = none → update_weekly_chore payload d = none) ∧
    (∀ comp, payload.get? "completed" = some comp → comp.truthy = true →
      payload.get? "choreId" = none ∨ payload.get? "userId" = none →
      update_weekly_chore payload d = none) ∧
    (∀ comp, payload.get? "completed" = some comp → comp.truthy = false →
      d.currentWeek.assignedChores = [] → d.currentWeek.completedLog = [] →
      update_weekly_chore payload d = some d) := by
  refine ⟨?_, ?_, ?_⟩
  · intro hm
    cases hloop : updateAssignedLoop payload d.currentWeek.assignedChores
    · simp [update_weekly_chore, hloop]
    · simp [update_weekly_chore, hloop, hm]
  · intro comp hm ht hmiss
    cases hloop : updateAssignedLoop payload d.currentWeek.assignedChores
    · simp [update_weekly_chore, hloop]
    · rcases hmiss with hcn | hun
      · cases hlog : d.currentWeek.completedLog with
        | nil => simp [update_weekly_chore, hloop, hm, ht, hlog, logExistsScan, hcn]
        | cons e rest =>
            simp [update_weekly_chore, hloop, hm, ht, hlog,
              logExistsScan_none_of_no_choreId payload hcn e rest]
      · cases hscan : logExistsScan payload d.currentWeek.completedLog with
        | none => simp [update_weekly_chore, hloop, hm, ht, hscan]
        | some b =>
            cases b
            · cases hcid : payload.get? "choreId" <;>
                simp [update_weekly_chore, hloop, hm, ht, hscan, hcid, hun]
            · exact absurd hscan (logExistsScan_ne_true_of_no_userId payload hun _)
  · intro comp hm ht ha hl
    simp [update_weekly_chore, ha, hl, hm, ht, updateAssignedLoop, removeMatchingLog]
    rw [← ha, ← hl]

/-- C9 amended witness: the payload `{"completed": true}` (missing
`choreId` and `userId`, truthy completed) faults on the seed document. -/
theorem update_weekly_chore_missing_keys_amended_witness :
    update_weekly_chore (JVal.jobj (JObj.cons "completed" (JVal.jbool true) JObj.nil))
        seedDocument = none :=
  (update_weekly_chore_missing_keys_amended
      (JVal.jobj (JObj.cons "completed" (JVal.jbool true) JObj.nil))
      seedDocument).2.1 (JVal.jbool true) rfl rfl (Or.inl rfl)

end Choreboard
